import Mathlib

/-!
Verification of the safe-redirect logic of the PinPoint auth callback route
(`src/app/auth/callback/route.ts`).

Strings are embedded as `List Char` (the code points of a JavaScript string).
The repository function `resolveRedirectPath` and the handler `GET` are
embedded from the source; the URL parsing they delegate to the platform
(`new URL(input, "http://localhost")`) is modelled after the WHATWG basic URL
parser restricted to hierarchical (special-scheme) URLs, as described with the
`parseUrl` definition below.
-/

/-- A character that the WHATWG parser treats as a slash in special URLs:
`/` or `\`. -/
def isSlash (ch : Char) : Bool := ch = '/' || ch = '\\'

/-- First character of a URL scheme: an ASCII letter. -/
def isSchemeStart (ch : Char) : Bool := ch.isAlpha

/-- Subsequent characters of a URL scheme. -/
def isSchemeChar (ch : Char) : Bool := ch.isAlphanum || ch = '+' || ch = '-' || ch = '.'

/-- Accumulating loop of `splitScheme`: consume scheme characters until a `:`;
any other character means the input has no scheme. -/
def schemeLoop (acc : List Char) : List Char → Option (List Char × List Char)
  | [] => none
  | ch :: rest =>
    if ch = ':' then some (acc.reverse.map Char.toLower, rest)
    else if isSchemeChar ch then schemeLoop (ch :: acc) rest
    else none

/-- Split a leading `scheme:` off the input, lowercasing the scheme, as the
WHATWG scheme state does. Returns `none` when the input carries no scheme. -/
def splitScheme (s : List Char) : Option (List Char × List Char) :=
  match s with
  | [] => none
  | ch :: rest => if isSchemeStart ch then schemeLoop [ch] rest else none

/-- Default port of the special schemes modelled here. -/
def defaultPort (scheme : List Char) : Option Nat :=
  if scheme = "http".data then some 80
  else if scheme = "https".data then some 443
  else if scheme = "ws".data then some 80
  else if scheme = "wss".data then some 443
  else if scheme = "ftp".data then some 21
  else none

/-- A scheme whose URLs are hierarchical with a required authority. -/
def isSpecialScheme (scheme : List Char) : Bool := (defaultPort scheme).isSome

/-- Characters this model admits in a hostname. The WHATWG parser additionally
runs IDNA/percent-decoding on hosts; the model conservatively rejects inputs
that would need it (they parse to `none`, i.e. a thrown `TypeError`). -/
def isHostChar (ch : Char) : Bool := ch.isAlphanum || ch = '.' || ch = '-' || ch = '_'

/-- Validate and normalize (ASCII-lowercase) a hostname; an empty or
invalid hostname is a parse failure for special schemes. -/
def normalizeHostname (s : List Char) : Option (List Char) :=
  if s = [] then none
  else if s.all isHostChar then some (s.map Char.toLower) else none

/-- Parse the characters after `host:`. `some none` means the port is absent
(a bare trailing colon), `some (some n)` a numeric port, `none` a failure. -/
def parsePort (s : List Char) : Option (Option Nat) :=
  if s = [] then some none
  else if s.all Char.isDigit then
    let n := s.foldl (fun acc ch => acc * 10 + (ch.toNat - 48)) 0
    if n ≤ 65535 then some (some n) else none
  else none

/-- Decimal digits of a port number, for host serialization. -/
def natToDigits (n : Nat) : List Char := Nat.toDigits 10 n

/-- Drop the userinfo part of an authority: everything up to the last `@`. -/
def dropUserinfo (auth : List Char) : List Char :=
  if auth.contains '@' then (auth.reverse.takeWhile (fun ch => ch != '@')).reverse
  else auth

/-- Parse `hostname[:port]`, producing the serialized `host` exactly as the
platform's `url.host` getter does: hostname lowercased, the port kept only
when present and different from the scheme's default port. -/
def parseHostPort (scheme hostport : List Char) : Option (List Char) :=
  let h := hostport.takeWhile (fun ch => ch != ':')
  let rest := hostport.drop h.length
  match normalizeHostname h with
  | none => none
  | some hn =>
    match rest with
    | [] => some hn
    | _ :: portStr =>
      match parsePort portStr with
      | none => none
      | some none => some hn
      | some (some p) =>
        if defaultPort scheme = some p then some hn
        else some (hn ++ ':' :: natToDigits p)

/-- A character that terminates the authority component. -/
def isAuthorityEnd (ch : Char) : Bool := ch = '/' || ch = '\\' || ch = '?' || ch = '#'

/-- Split the input into path-candidate segments at every `/`. -/
def splitSegs : List Char → List (List Char)
  | [] => [[]]
  | ch :: rest =>
    if ch = '/' then [] :: splitSegs rest
    else
      match splitSegs rest with
      | seg :: segs => (ch :: seg) :: segs
      | [] => [[ch]]

/-- WHATWG dot-segment processing over path segments: `.` is dropped, `..`
pops the previous segment; a trailing `.` or `..` leaves a trailing empty
segment (a trailing slash in the serialization). -/
def processSegs (stack : List (List Char)) : List (List Char) → List (List Char)
  | [] => stack.reverse
  | seg :: rest =>
    if seg = ".".data then
      if rest = [] then (([] : List Char) :: stack).reverse
      else processSegs stack rest
    else if seg = "..".data then
      if rest = [] then (([] : List Char) :: stack.tail).reverse
      else processSegs stack.tail rest
    else processSegs (seg :: stack) rest

/-- Join path segments with `/` between them. -/
def joinSegs : List (List Char) → List Char
  | [] => []
  | [seg] => seg
  | seg :: rest => seg ++ '/' :: joinSegs rest

/-- Serialized pathname of a special URL from the raw path characters:
backslashes count as slashes, dot segments are removed, and the result always
begins with `/`. -/
def normPath (p : List Char) : List Char :=
  let p2 := p.map (fun ch => if ch = '\\' then '/' else ch)
  let body :=
    match p2 with
    | '/' :: rest => rest
    | other => other
  '/' :: joinSegs (processSegs [] (splitSegs body))

/-- Split off the fragment: everything from the first `#` on. -/
def splitHash (s : List Char) : List Char × List Char :=
  let before := s.takeWhile (fun ch => ch != '#')
  (before, s.drop before.length)

/-- Split off the query: everything from the first `?` on. -/
def splitQuery (s : List Char) : List Char × List Char :=
  let before := s.takeWhile (fun ch => ch != '?')
  (before, s.drop before.length)

/-- The `url.search` getter returns the empty string for a bare `?`. -/
def normSearch (s : List Char) : List Char := if s = "?".data then [] else s

/-- The `url.hash` getter returns the empty string for a bare `#`. -/
def normHash (s : List Char) : List Char := if s = "#".data then [] else s

/-- Parsed URL, holding exactly the getters the route reads: `host` (with
port when non-default), `pathname`, `search` and `hash`. -/
structure UrlParts where
  scheme : List Char
  host : List Char
  pathname : List Char
  search : List Char
  hash : List Char
deriving DecidableEq

/-- Assemble pathname, search and hash from the characters after the
authority. -/
def mkFromPathRest (scheme host rest : List Char) : UrlParts :=
  let hsplit := splitHash rest
  let qsplit := splitQuery hsplit.fst
  { scheme := scheme
    host := host
    pathname := normPath qsplit.fst
    search := normSearch qsplit.snd
    hash := normHash hsplit.snd }

/-- Skip the extra slashes the WHATWG parser ignores before an authority. -/
def skipSlashes (s : List Char) : List Char := s.dropWhile isSlash

/-- Parse `authority ++ path/query/fragment` for a special scheme. Fails when
the host is empty or invalid. -/
def parseWithAuthority (scheme s : List Char) : Option UrlParts :=
  (parseHostPort scheme (dropUserinfo (s.takeWhile (fun ch => !isAuthorityEnd ch)))).map
    (fun host => mkFromPathRest scheme host (s.dropWhile (fun ch => !isAuthorityEnd ch)))

/-- Parse an input with no scheme (or the base's own scheme) relative to the
base `http://localhost`: two leading slash-like characters introduce a new
authority; anything else keeps the base's host and is path/query/fragment
relative to the base path `/`. -/
def parseRelative (input : List Char) : Option UrlParts :=
  match input with
  | c1 :: c2 :: rest2 =>
    if isSlash c1 && isSlash c2 then parseWithAuthority "http".data (skipSlashes rest2)
    else some (mkFromPathRest "http".data "localhost".data input)
  | _ => some (mkFromPathRest "http".data "localhost".data input)

/-- Model of the platform call `new URL(input, "http://localhost")` as used by
`resolveRedirectPath`. `none` stands for a thrown `TypeError`. The model
follows the WHATWG basic URL parser for hierarchical URLs: scheme detection
and lowercasing, the special relative-or-authority handling for the base's
own scheme, slash/backslash-tolerant authority introduction, userinfo
dropping, host lowercasing with default-port elision, and path normalization
with dot-segment removal. It deviates from the platform in treating
non-special schemes (opaque paths, e.g. `javascript:`), `file:` URLs, hosts
needing IDNA or percent-decoding, and inputs needing tab/newline stripping or
percent-encoding as parse failures or verbatim text; none of these produce a
host matching a trusted host set drawn from a real origin, so the resolver
reaches the same fallback on them either way. -/
def parseUrl (input : List Char) : Option UrlParts :=
  match splitScheme input with
  | some (scheme, rest) =>
    if scheme = "http".data then parseRelative rest
    else if isSpecialScheme scheme then parseWithAuthority scheme (skipSlashes rest)
    else none
  | none => parseRelative input

/-- Model of `new URL(input)` without a base, used on the configured site
URL: the input must itself carry a special scheme and an authority. -/
def parseAbsUrl (input : List Char) : Option UrlParts :=
  match splitScheme input with
  | some (scheme, rest) =>
    if isSpecialScheme scheme then parseWithAuthority scheme (skipSlashes rest)
    else none
  | none => none

/-- True iff the string begins with exactly one `/` (not followed by a
second `/`). -/
def startsWithSingleSlash (s : List Char) : Bool :=
  match s with
  | [] => false
  | c1 :: rest =>
    if c1 = '/' then
      match rest with
      | c2 :: _ => c2 != '/'
      | [] => true
    else false

/-- True iff a `:` occurs before the first `/` — the spec's "scheme marker". -/
def schemeColonBefore (s : List Char) : Bool :=
  (s.takeWhile (fun ch => ch != '/')).contains ':'

/-- Modelled from the spec: `isInternalUrl` is imported by the callback route
from `~/lib/url`, whose source is not in the repository snapshot. Per the
spec (§4.1 `isInternalPath`) it returns true iff the candidate begins with
exactly one `/` followed by a character that is not `/` and contains no
scheme marker (no `:` before the first `/`), treating the empty string and
`/` itself as internal. -/
def isInternalUrl (s : List Char) : Bool :=
  s.isEmpty || (startsWithSingleSlash s && !schemeColonBefore s)

/-- Reconstructed path-only string: the `normalizedPath` of the source,
`pathname + search + hash`. -/
def recon (u : UrlParts) : List Char := u.pathname ++ u.search ++ u.hash

/-- Embedding of `resolveRedirectPath` from `src/app/auth/callback/route.ts`.
`none` is a `null` argument; the `nextParam == ""` test mirrors JavaScript
falsiness in `if (!nextParam)`. -/
def resolveRedirectPath (nextParam : Option (List Char)) (allowedHosts : List (List Char)) :
    List Char :=
  match nextParam with
  | none => ['/']
  | some c =>
    if c = [] then ['/']
    else if isInternalUrl c then c
    else
      match parseUrl c with
      | some u =>
        if allowedHosts.contains u.host then
          if isInternalUrl (recon u) then recon u else ['/']
        else ['/']
      | none => ['/']

/-- Hex digit (uppercase) of a value below 16. -/
def hexDigit (n : Nat) : Char :=
  if n < 10 then Char.ofNat (48 + n) else Char.ofNat (55 + n)

/-- Characters `encodeURIComponent` leaves unescaped. -/
def isUriUnreserved (ch : Char) : Bool :=
  ch.isAlphanum || ch = '-' || ch = '_' || ch = '.' || ch = '!' || ch = '~' ||
    ch = '*' || ch = Char.ofNat 39 || ch = '(' || ch = ')'

/-- Percent-encode one character as its UTF-8 bytes. -/
def percentEncodeChar (ch : Char) : List Char :=
  (String.utf8EncodeChar ch).foldr
    (fun b acc => '%' :: hexDigit (b.toNat / 16) :: hexDigit (b.toNat % 16) :: acc) []

/-- Model of JavaScript `encodeURIComponent`. -/
def encodeURIComponent (s : List Char) : List Char :=
  s.foldr (fun ch acc => (if isUriUnreserved ch then [ch] else percentEncodeChar ch) ++ acc) []

/-- Embedding of `isValidEmailOtpType` from the route: `null` and the empty
string are falsy, otherwise the value must be one of the six literals. -/
def isValidEmailOtpType (value : Option (List Char)) : Bool :=
  match value with
  | none => false
  | some v =>
    if v.isEmpty then false
    else v == "signup".data || v == "invite".data || v == "magiclink".data ||
      v == "recovery".data || v == "email_change".data || v == "email".data

/-- JavaScript truthiness of a nullable string: `null` and `""` are falsy. -/
def jsTruthy (s : Option (List Char)) : Bool :=
  match s with
  | none => false
  | some v => !v.isEmpty

/-- The inputs of one `GET` invocation that the redirect target can see:
the request's query parameters, its client-supplied headers, and the
outcomes of the two Supabase calls (which consume the code, token and
cookies). Cookie plumbing and logging do not affect the target and are not
modelled; the Supabase environment variables are assumed configured. -/
structure AuthRequest where
  headers : List (List Char × List Char)
  next : Option (List Char)
  code : Option (List Char)
  tokenHash : Option (List Char)
  typeParam : Option (List Char)
  exchangeOk : Bool
  otpOk : Bool

/-- Replace the client-supplied headers of a request. -/
def withHeaders (r : AuthRequest) (hs : List (List Char × List Char)) : AuthRequest :=
  ⟨hs, r.next, r.code, r.tokenHash, r.typeParam, r.exchangeOk, r.otpOk⟩

/-- The handler's `next` constant: the resolved redirect path, with
`allowedHosts = [siteHost]` and the `?? "/"` default on the query
parameter. -/
def nextOf (su : UrlParts) (req : AuthRequest) : List Char :=
  resolveRedirectPath (some (req.next.getD ['/'])) [su.host]

/-- The handler's `redirectPath` constant: `/reset-password` is routed
through the loading-screen indirection, every other resolved path is used
as is. -/
def redirectPathOf (su : UrlParts) (req : AuthRequest) : List Char :=
  if nextOf su req = "/reset-password".data
  then "/auth/loading?next=".data ++ encodeURIComponent (nextOf su req)
  else nextOf su req

/-- Embedding of the redirect target issued by the route's `GET` handler.
`siteUrl` is the value of `getSiteUrl()`. Modelled from the spec: the body of
`getSiteUrl` (from `~/lib/url`) is not in the repository snapshot; per the
spec it returns the canonical, statically configured site URL
(`NEXT_PUBLIC_SITE_URL`), never a value derived from request headers, so it
enters the model as a configuration parameter independent of the request.
`none` stands for `new URL(siteUrl)` throwing. -/
def redirectTarget (siteUrl : List Char) (req : AuthRequest) : Option (List Char) :=
  match parseAbsUrl siteUrl with
  | none => none
  | some su =>
    if jsTruthy req.code && req.exchangeOk then
      some (siteUrl ++ redirectPathOf su req)
    else if jsTruthy req.tokenHash && isValidEmailOtpType req.typeParam && req.otpOk then
      some (siteUrl ++ redirectPathOf su req)
    else
      some (siteUrl ++ "/auth/auth-code-error".data)

/-- A string accepted by `startsWithSingleSlash` is a slash followed by a
tail that does not begin with a second slash. -/
theorem startsWithSingleSlash_elim {s : List Char} (h : startsWithSingleSlash s = true) :
    ∃ t, s = '/' :: t ∧ ∀ t2, s ≠ '/' :: '/' :: t2 := by
  match s with
  | [] => exact absurd h (by decide)
  | c1 :: rest =>
    have hc : c1 = '/' := by
      by_contra hne
      simp [startsWithSingleSlash, hne] at h
    subst hc
    refine ⟨rest, rfl, fun t2 he => ?_⟩
    have h2 : rest = '/' :: t2 := by injection he
    subst h2
    simp [startsWithSingleSlash] at h

/-- A string beginning with `/` has no colon before its first slash. -/
theorem schemeColonBefore_slash (t : List Char) : schemeColonBefore ('/' :: t) = false := rfl

/-- A single leading slash makes a string internal. -/
theorem isInternalUrl_single {s : List Char} (h : startsWithSingleSlash s = true) :
    isInternalUrl s = true := by
  obtain ⟨t, rfl, -⟩ := startsWithSingleSlash_elim h
  simp [isInternalUrl, h, schemeColonBefore_slash]

/-- A nonempty internal string begins with exactly one slash. -/
theorem internal_elim {s : List Char} (h : isInternalUrl s = true) (hne : s ≠ []) :
    startsWithSingleSlash s = true := by
  cases s with
  | nil => exact absurd rfl hne
  | cons a l =>
    simp [isInternalUrl] at h
    exact h.1

/-- The resolver returns a nonempty internal candidate unchanged. -/
theorem resolve_internal {s : List Char} (H : List (List Char))
    (h : isInternalUrl s = true) (hne : s ≠ []) :
    resolveRedirectPath (some s) H = s := by
  simp [resolveRedirectPath, hne, h]

/-- The pathname assembled by `mkFromPathRest` always begins with `/`. -/
theorem mkFromPathRest_pathname (a b c : List Char) :
    ∃ t, (mkFromPathRest a b c).pathname = '/' :: t := ⟨_, rfl⟩

/-- Authority parsing only produces pathnames beginning with `/`. -/
theorem parseWithAuthority_shape {scheme s : List Char} {u : UrlParts}
    (h : parseWithAuthority scheme s = some u) : ∃ t, u.pathname = '/' :: t := by
  unfold parseWithAuthority at h
  rw [Option.map_eq_some'] at h
  obtain ⟨host, -, h'⟩ := h
  subst h'
  exact mkFromPathRest_pathname _ _ _

/-- Relative parsing only produces pathnames beginning with `/`. -/
theorem parseRelative_shape {s : List Char} {u : UrlParts}
    (h : parseRelative s = some u) : ∃ t, u.pathname = '/' :: t := by
  unfold parseRelative at h
  split at h
  · split at h
    · exact parseWithAuthority_shape h
    · injection h with h'
      subst h'
      exact mkFromPathRest_pathname _ _ _
  · injection h with h'
    subst h'
    exact mkFromPathRest_pathname _ _ _

/-- Every URL the model parses has a pathname beginning with `/`. -/
theorem parseUrl_shape {s : List Char} {u : UrlParts} (h : parseUrl s = some u) :
    ∃ t, u.pathname = '/' :: t := by
  unfold parseUrl at h
  split at h
  · split at h
    · exact parseRelative_shape h
    · split at h
      · exact parseWithAuthority_shape h
      · exact absurd h (by simp)
  · exact parseRelative_shape h

/-- Reduction of the resolver on a nonempty, non-internal candidate whose
parse succeeds. -/
theorem resolve_eq_of_parse {s : List Char} {u : UrlParts} (H : List (List Char))
    (h1 : s ≠ []) (h2 : isInternalUrl s = false) (hp : parseUrl s = some u) :
    resolveRedirectPath (some s) H =
      if H.contains u.host then (if isInternalUrl (recon u) then recon u else ['/'])
      else ['/'] := by
  simp [resolveRedirectPath, h1, h2, hp]

/-- Reduction of the resolver on a nonempty, non-internal candidate whose
parse fails. -/
theorem resolve_eq_of_parseFail {s : List Char} (H : List (List Char))
    (h1 : s ≠ []) (h2 : isInternalUrl s = false) (hp : parseUrl s = none) :
    resolveRedirectPath (some s) H = ['/'] := by
  simp [resolveRedirectPath, h1, h2, hp]

/-- Case analysis on the resolver's output: it is either the literal fallback
or a nonempty string that passes `isInternalUrl`. -/
theorem resolve_shape (c : Option (List Char)) (H : List (List Char)) :
    resolveRedirectPath c H = ['/'] ∨
      (isInternalUrl (resolveRedirectPath c H) = true ∧ resolveRedirectPath c H ≠ []) := by
  cases c with
  | none => exact Or.inl rfl
  | some s =>
    by_cases h1 : s = []
    · left
      simp [resolveRedirectPath, h1]
    · cases h2 : isInternalUrl s with
      | true =>
        right
        rw [resolve_internal H h2 h1]
        exact ⟨h2, h1⟩
      | false =>
        cases hp : parseUrl s with
        | none => exact Or.inl (resolve_eq_of_parseFail H h1 h2 hp)
        | some u =>
          have he := resolve_eq_of_parse H h1 h2 hp
          cases h3 : H.contains u.host with
          | false =>
            left
            rw [he, h3]
            simp
          | true =>
            cases h4 : isInternalUrl (recon u) with
            | false =>
              left
              rw [he, h3, h4]
              simp
            | true =>
              right
              rw [he, h3, h4]
              simp only [if_pos rfl]
              obtain ⟨t, ht⟩ := parseUrl_shape hp
              exact ⟨h4, by simp [recon, ht]⟩

/-- C1: for every candidate (or null) and every host set, `resolveRedirectPath`
returns either the literal fallback `/` or a string that starts with `/`, does
not start with `//`, and contains no scheme marker (no `:` before the first
`/`), so it never denotes a foreign origin. -/
theorem resolveRedirectPath_safe (c : Option (List Char)) (H : List (List Char)) :
    resolveRedirectPath c H = ['/'] ∨
      (∃ t, resolveRedirectPath c H = '/' :: t ∧
        (∀ t2, resolveRedirectPath c H ≠ '/' :: '/' :: t2) ∧
        schemeColonBefore (resolveRedirectPath c H) = false) := by
  rcases resolve_shape c H with h | ⟨hint, hne⟩
  · exact Or.inl h
  · right
    obtain ⟨t, heq, hnd⟩ := startsWithSingleSlash_elim (internal_elim hint hne)
    exact ⟨t, heq, hnd, by rw [heq]; exact schemeColonBefore_slash t⟩

/-- C2: a candidate that is not internal and whose parsed host is not a member
of the trusted host set resolves to the fallback `/`, never to the candidate's
path component. -/
theorem resolveRedirectPath_untrusted (s : List Char) (H : List (List Char))
    (h1 : isInternalUrl s = false)
    (h2 : Option.all (fun u => !(H.contains u.host)) (parseUrl s) = true) :
    resolveRedirectPath (some s) H = ['/'] := by
  have hne : s ≠ [] := by
    intro h
    rw [h] at h1
    exact absurd h1 (by decide)
  cases hp : parseUrl s with
  | none => exact resolve_eq_of_parseFail H hne h1 hp
  | some u =>
    rw [hp] at h2
    have h3 : H.contains u.host = false := by simpa using h2
    rw [resolve_eq_of_parse H hne h1 hp, h3]
    simp

/-- Witness for C2 at the spec's two examples. -/
theorem resolveRedirectPath_untrusted_witness :
    resolveRedirectPath (some "https://evil.com/steal".data) ["app.example.com".data] = ['/'] ∧
      resolveRedirectPath (some "//evil.com/phish".data) ["app.example.com".data] = ['/'] :=
  ⟨resolveRedirectPath_untrusted _ _ (by decide) (by decide),
   resolveRedirectPath_untrusted _ _ (by decide) (by decide)⟩

/-- C5: a candidate that begins with exactly one `/` (not followed by a second
`/`) is returned unchanged, for every host set. -/
theorem resolveRedirectPath_internal_id (s : List Char) (H : List (List Char))
    (h : startsWithSingleSlash s = true) :
    resolveRedirectPath (some s) H = s := by
  obtain ⟨t, rfl, -⟩ := startsWithSingleSlash_elim h
  exact resolve_internal H (isInternalUrl_single h) (by simp)

/-- Witness for C5 at the spec's example, with an arbitrary host set. -/
theorem resolveRedirectPath_internal_id_witness :
    resolveRedirectPath (some "/dashboard?tab=issues#top".data) [] =
      "/dashboard?tab=issues#top".data :=
  resolveRedirectPath_internal_id _ [] (by decide)

/-- C6: the resolver (a total function in this embedding — it can signal no
error) maps every candidate that reaches URL parsing and fails it to the
fallback `/`; parse failures are swallowed, never propagated. -/
theorem resolveRedirectPath_parseFail (s : List Char) (H : List (List Char))
    (h1 : isInternalUrl s = false) (h2 : parseUrl s = none) :
    resolveRedirectPath (some s) H = ['/'] := by
  have hne : s ≠ [] := by
    intro h
    rw [h] at h1
    exact absurd h1 (by decide)
  exact resolve_eq_of_parseFail H hne h1 h2

/-- Witness for C6: `http://` has no host and fails to parse. -/
theorem resolveRedirectPath_parseFail_witness :
    resolveRedirectPath (some "http://".data) ["app.example.com".data] = ['/'] :=
  resolveRedirectPath_parseFail _ _ (by decide) (by decide)

/-- C7: the resolver is idempotent — resolving its own output against the same
host set returns that output unchanged. -/
theorem resolveRedirectPath_idem (c : Option (List Char)) (H : List (List Char)) :
    resolveRedirectPath (some (resolveRedirectPath c H)) H = resolveRedirectPath c H := by
  rcases resolve_shape c H with h | ⟨hi, hn⟩
  · rw [h]
    exact resolve_internal H (by decide) (by decide)
  · exact resolve_internal H hi hn

/-- C8 counterexample: the empty candidate is internal per the spec's
`isInternalPath`, yet the resolver returns the fallback `/`, not the empty
string, because JavaScript falsiness (`if (!nextParam)`) catches `""` first. -/
theorem resolveRedirectPath_empty_counterexample :
    isInternalUrl [] = true ∧
      resolveRedirectPath (some []) ["app.example.com".data] = ['/'] ∧
      resolveRedirectPath (some []) ["app.example.com".data] ≠ ([] : List Char) := by
  refine ⟨by decide, rfl, by decide⟩

/-- C8 amended: the empty string is treated as internal by `isInternalUrl`,
but `resolveRedirectPath("", H)` returns the fallback `/` for every host set,
because the initial falsiness check treats `""` like `null` before step 2 is
reached. -/
theorem resolveRedirectPath_empty_fallback (H : List (List Char)) :
    isInternalUrl [] = true ∧ resolveRedirectPath (some []) H = ['/'] :=
  ⟨by decide, rfl⟩

/-- C4: a non-internal candidate whose parsed host is a member of the trusted
host set resolves to the reconstructed path-only string
`pathname + search + hash`, provided that string passes the `isInternalUrl`
re-check. -/
theorem resolveRedirectPath_trusted (s : List Char) (H : List (List Char)) (u : UrlParts)
    (h1 : isInternalUrl s = false) (h2 : parseUrl s = some u)
    (h3 : H.contains u.host = true) (h4 : isInternalUrl (recon u) = true) :
    resolveRedirectPath (some s) H = recon u := by
  have hne : s ≠ [] := by
    intro h
    rw [h] at h1
    exact absurd h1 (by decide)
  rw [resolve_eq_of_parse H hne h1 h2, h3, h4]
  simp

/-- Witness for C4 at the spec's example. -/
theorem resolveRedirectPath_trusted_witness :
    resolveRedirectPath (some "http://app.example.com/dashboard".data)
      ["app.example.com".data] = "/dashboard".data :=
  (resolveRedirectPath_trusted _ _
      ⟨"http".data, "app.example.com".data, "/dashboard".data, [], []⟩
      (by decide) (by decide) (by decide) (by decide)).trans (by decide)

/-- C9 counterexample: `..//x` carries no scheme and does not start with `/`,
and it parses against the base to host `localhost` with pathname `//x`
(WHATWG dot-segment removal); yet with `localhost` trusted the resolver
returns the fallback `/` — the reconstructed path fails the re-check — not
`/` followed by the path. -/
theorem resolveRedirectPath_relative_counterexample :
    parseUrl "..//x".data =
        some ⟨"http".data, "localhost".data, "//x".data, [], []⟩ ∧
      resolveRedirectPath (some "..//x".data) ["localhost".data] = ['/'] ∧
      (['/'] : List Char) ≠ "//x".data := by
  refine ⟨by decide, by decide, by decide⟩

/-- C9 amended: a nonempty candidate with no scheme that does not start with a
slash (or backslash) parses against the base `http://localhost`, so its host
is `localhost`; if `localhost` is not trusted the result is the fallback `/`,
and if `localhost` is trusted the reconstructed path-only string is returned
provided it passes the `isInternalUrl` re-check. -/
theorem resolveRedirectPath_relative (s : List Char) (H : List (List Char))
    (hns : splitScheme s = none) (hhead : ∀ ch ∈ s.take 1, isSlash ch = false)
    (hne : s ≠ []) :
    ∃ u, parseUrl s = some u ∧ u.host = "localhost".data ∧
      (∃ t, u.pathname = '/' :: t) ∧
      (H.contains "localhost".data = false → resolveRedirectPath (some s) H = ['/']) ∧
      (H.contains "localhost".data = true → isInternalUrl (recon u) = true →
        resolveRedirectPath (some s) H = recon u) := by
  obtain ⟨c, cs, rfl⟩ : ∃ c cs, s = c :: cs := by
    cases s with
    | nil => exact absurd rfl hne
    | cons a l => exact ⟨a, l, rfl⟩
  have hc : isSlash c = false := hhead c (by simp)
  have hp : parseUrl (c :: cs) = some (mkFromPathRest "http".data "localhost".data (c :: cs)) := by
    unfold parseUrl
    rw [hns]
    cases cs with
    | nil => simp [parseRelative]
    | cons c2 cs2 => simp [parseRelative, hc]
  have hcz : c ≠ '/' := by
    intro h
    rw [h] at hc
    exact absurd hc (by decide)
  have hint : isInternalUrl (c :: cs) = false := by
    simp [isInternalUrl, startsWithSingleSlash, hcz]
  refine ⟨_, hp, rfl, mkFromPathRest_pathname _ _ _, ?_, ?_⟩
  · intro hcon
    rw [resolve_eq_of_parse H (by simp) hint hp]
    have : (mkFromPathRest "http".data "localhost".data (c :: cs)).host = "localhost".data := rfl
    rw [this, hcon]
    simp
  · intro hcon hrec
    rw [resolve_eq_of_parse H (by simp) hint hp]
    have : (mkFromPathRest "http".data "localhost".data (c :: cs)).host = "localhost".data := rfl
    rw [this, hcon, hrec]
    simp

/-- Witness for C9 (amended) at the relative candidate `dashboard` with
`localhost` trusted. -/
theorem resolveRedirectPath_relative_witness :
    resolveRedirectPath (some "dashboard".data) ["localhost".data] = "/dashboard".data := by
  obtain ⟨u, hp, -, -, -, hhit⟩ :=
    resolveRedirectPath_relative "dashboard".data ["localhost".data] (by decide)
      (by decide) (by decide)
  have hu : u = ⟨"http".data, "localhost".data, "/dashboard".data, [], []⟩ := by
    have h2 : parseUrl "dashboard".data =
        some (⟨"http".data, "localhost".data, "/dashboard".data, [], []⟩ : UrlParts) := by decide
    rw [h2] at hp
    exact (Option.some_inj.mp hp).symm
  have h3 := hhit (by decide) (by rw [hu]; decide)
  rw [hu] at h3
  exact h3.trans (by decide)

/-- C10 counterexample: `//app.example.com:80/x` is protocol-relative with host
`app.example.com:80`, literally a member of the trusted host set, yet the
resolver returns the fallback `/` rather than `/x`: the parser inherits the
base scheme `http` and elides the default port 80, so the serialized host
`app.example.com` is not in the set. -/
theorem resolveRedirectPath_protocolRelative_counterexample :
    resolveRedirectPath (some "//app.example.com:80/x".data)
        ["app.example.com:80".data] = ['/'] ∧
      (['/'] : List Char) ≠ "/x".data := by
  refine ⟨by decide, by decide⟩

/-- C10 amended: protocol-relative candidates are not unconditionally
rejected. A candidate `//…` always fails `isInternalUrl`, but when it parses
to a URL whose serialized (normalized) host is a member of the trusted host
set, the reconstructed path-only string is returned provided it passes the
`isInternalUrl` re-check; when the serialized host is untrusted the result is
the fallback `/`. -/
theorem resolveRedirectPath_protocolRelative (r : List Char) (H : List (List Char))
    (u : UrlParts) (hp : parseUrl ('/' :: '/' :: r) = some u) :
    isInternalUrl ('/' :: '/' :: r) = false ∧
      (H.contains u.host = true → isInternalUrl (recon u) = true →
        resolveRedirectPath (some ('/' :: '/' :: r)) H = recon u) ∧
      (H.contains u.host = false → resolveRedirectPath (some ('/' :: '/' :: r)) H = ['/']) := by
  have hint : isInternalUrl ('/' :: '/' :: r) = false := rfl
  refine ⟨hint, ?_, ?_⟩
  · intro h3 h4
    rw [resolve_eq_of_parse H (by simp) hint hp, h3, h4]
    simp
  · intro h3
    rw [resolve_eq_of_parse H (by simp) hint hp, h3]
    simp

/-- Witness for C10 (amended): a trusted-host protocol-relative candidate is
accepted with its path preserved. -/
theorem resolveRedirectPath_protocolRelative_witness :
    isInternalUrl "//app.example.com/path".data = false ∧
      resolveRedirectPath (some "//app.example.com/path".data) ["app.example.com".data] =
        "/path".data := by
  obtain ⟨hint, hhit, -⟩ :=
    resolveRedirectPath_protocolRelative "app.example.com/path".data ["app.example.com".data]
      ⟨"http".data, "app.example.com".data, "/path".data, [], []⟩ (by decide)
  exact ⟨hint, (hhit (by decide) (by decide)).trans (by decide)⟩

/-- The handler's redirect path is always a nonempty internal path: the
resolved `next`, its loading-screen wrapper, or (elsewhere) the error page. -/
theorem redirectPathOf_internal (su : UrlParts) (req : AuthRequest) :
    isInternalUrl (redirectPathOf su req) = true ∧ redirectPathOf su req ≠ [] := by
  unfold redirectPathOf
  by_cases h : nextOf su req = "/reset-password".data
  · rw [if_pos h, h]
    exact ⟨by decide, by decide⟩
  · rw [if_neg h]
    have hs := resolve_shape (some (req.next.getD ['/'])) [su.host]
    rcases hs with h1 | ⟨h1, h2⟩
    · unfold nextOf
      rw [h1]
      exact ⟨by decide, by decide⟩
    · exact ⟨h1, h2⟩

/-- C3: every redirect the handler issues targets the canonical configured
origin — the target is `siteUrl` (from static configuration, never a request
header) concatenated with a nonempty internal path — and the target is
unchanged under any change to the client-supplied request headers. -/
theorem redirectTarget_canonical (siteUrl : List Char) (req : AuthRequest)
    (target : List Char) (h : redirectTarget siteUrl req = some target) :
    (∃ p, target = siteUrl ++ p ∧ isInternalUrl p = true ∧ p ≠ []) ∧
      ∀ hs, redirectTarget siteUrl (withHeaders req hs) = some target := by
  constructor
  · unfold redirectTarget at h
    split at h
    · exact absurd h (by simp)
    next su heq =>
      obtain ⟨hi, hn⟩ := redirectPathOf_internal su req
      split at h
      · injection h with h'
        exact ⟨_, h'.symm, hi, hn⟩
      · split at h
        · injection h with h'
          exact ⟨_, h'.symm, hi, hn⟩
        · injection h with h'
          exact ⟨_, h'.symm, by decide, by decide⟩
  · intro hs
    have hw : redirectTarget siteUrl (withHeaders req hs) = redirectTarget siteUrl req := by
      cases req
      rfl
    rw [hw, h]

/-- Witness for C3 at a successful code exchange with a concrete
configuration. -/
theorem redirectTarget_canonical_witness :
    (∃ p, "https://app.example.com/dashboard".data = "https://app.example.com".data ++ p ∧
        isInternalUrl p = true ∧ p ≠ []) ∧
      ∀ hs, redirectTarget "https://app.example.com".data
          (withHeaders ⟨[], some "/dashboard".data, some "abc".data, none, none, true, false⟩ hs) =
        some "https://app.example.com/dashboard".data :=
  redirectTarget_canonical "https://app.example.com".data
    ⟨[], some "/dashboard".data, some "abc".data, none, none, true, false⟩
    "https://app.example.com/dashboard".data (by decide)
